import Mathlib

/-! # MTProto transport codec (`mtproto/codec.go`)

A shallow embedding of `MTProtoCodec.Receive` and `MTProtoCodec.Send` and the
properties of the framing, dispatch and key-binding logic.

Conventions of the embedding:

* a byte is a `Fin 256`; Go `int`, `int64` and `int32` values are `Int`, with the
  conversions `int64` and `int32` written out where the source converts or where
  32-bit addition can wrap;
* the codec's fields `State .. SeqNo` are the record `MTProtoCodec`; its `rw` field is
  the record `Transport`, passed and returned next to it; its embedded
  `AuthKeyStorager` and the message codecs (`decode` / `encode` methods of
  `UnencryptedMessage` and `EncryptedMessage2`, declared in other files of the
  package) are the fields of `Env`;
* a Go slice that may be `nil` (`AuthKey`, the result of `GetAuthKey`) is an
  `Option (List Byte)`, `none` being `nil`;
* a call returns an explicit outcome; an index out of range at run time is the outcome
  `indexOutOfRange`.
-/

namespace mtproto

/-! ## Data model -/

abbrev Byte := Fin 256

/-- Conversion `byte(n)` of a non-negative Go `int`. -/
def byte (n : Nat) : Byte := ⟨n % 256, Nat.mod_lt _ (by decide)⟩

def CODEC_UNKNOWN : Int := 0
def CODEC_CONNECTED : Int := 1
def CODEC_req_pq : Int := 2
def CODEC_resPQ : Int := 3
def CODEC_req_DH_params : Int := 4
def CODEC_server_DH_params_ok : Int := 5
def CODEC_server_DH_params_fail : Int := 6
def CODEC_set_client_DH_params : Int := 7
def CODEC_dh_gen_ok : Int := 8
def CODEC_dh_gen_retry : Int := 9
def CODEC_dh_gen_fail : Int := 10
def CODEC_AUTH_KEY_OK : Int := 11
def CODEC_ERROR : Int := 12

/-- The handshake message: the `NeedAck` flag that `Receive` sets, and the fields its
`decode` method fills in, of type `UB`. -/
structure UnencryptedMessage (UB : Type) where
  NeedAck : Bool
  body : UB
  deriving DecidableEq

/-- The key-bound message: the three fields `Send` stamps, and the rest, of type `EB`. -/
structure EncryptedMessage2 (EB : Type) where
  SessionId : Int
  salt : Int
  SeqNo : Int
  body : EB
  deriving DecidableEq

/-- A dynamically typed value (`interface{}`): one of the two message kinds, or
anything else. -/
inductive Msg (UB EB : Type) where
  | unencrypted (msg : UnencryptedMessage UB)
  | encrypted (msg : EncryptedMessage2 EB)
  | other
  deriving DecidableEq

/-- The fields of `MTProtoCodec` other than `rw` and the embedded key store. -/
structure MTProtoCodec where
  State : Int
  AuthKeyId : Int
  AuthKey : Option (List Byte)
  Salt : Int
  SessionId : Int
  SeqNo : Int
  deriving DecidableEq

/-- The stream `rw`, the accepted network connection (a `net.Conn`, whose `RemoteAddr`
the quick-ack error text names): `rd` holds the bytes that arrive on the read side
before the stream ends, `wr` the bytes handed to `Write` so far (also by a call of
`Write` that then reports an error), `werr` tells whether `Write` reports an error. -/
structure Transport where
  rd : List Byte
  wr : List Byte
  werr : Bool
  deriving DecidableEq

/-- The collaborators of the codec: the installed key store (`GetAuthKey` returns
`none` for `nil`) and the `decode` / `encode` methods of the two message kinds. -/
structure Env (UB EB E : Type) where
  GetAuthKey : Int → Option (List Byte)
  decodeUnencrypted : List Byte → Except E UB
  decodeEncrypted : Option (List Byte) → List Byte → Except E (EncryptedMessage2 EB)
  encodeUnencrypted : UnencryptedMessage UB → List Byte
  encodeEncrypted : EncryptedMessage2 EB → Int → Option (List Byte) → List Byte

/-- The errors `Receive` and `Send` return. -/
inductive CodecError (E : Type) where
  /-- An error of the stream (`io.ReadFull`, `Write`). -/
  | stream
  /-- Text "Recv QuickAckMessage, ignore!!!! sessionId: ..". -/
  | quickAck (sessionId : Int)
  /-- Text "Invalid state, is CODEC_AUTH_KEY_OK or CODEC_resPQ, but is %d". -/
  | invalidState (state : Int)
  /-- Text "Can not find authKey by authKeyId %d" (line 156). -/
  | noAuthKey (authKeyId : Int)
  /-- Text "Key error, cacheKey is .., recved keyId is ..". -/
  | keyError (cacheKey recved : Int)
  /-- The error a `decode` method returned. -/
  | decode (e : E)
  /-- Text "msg type error, only UnencryptedMessage or EncryptedMessage2, ..". -/
  | msgType
  deriving DecidableEq

/-- What a call of `Receive` yields. -/
inductive Outcome (UB EB E : Type) where
  | ok (msg : Msg UB EB)
  | error (e : CodecError E)
  | indexOutOfRange
  deriving DecidableEq

/-! ## Integer conversions -/

/-- Conversion to `int32`: the value modulo `2^32`, in `[-2^31, 2^31)`. -/
def int32 (x : Int) : Int := (x + 2147483648) % 4294967296 - 2147483648

/-- Conversion `int64(u)` of a `uint64`. -/
def int64 (u : Nat) : Int :=
  if u < 9223372036854775808 then (u : Int) else (u : Int) - 18446744073709551616

/-- The little-endian value of a byte sequence. -/
def leValue : List Byte → Nat
  | [] => 0
  | b :: bs => b.val + 256 * leValue bs

/-- The value `binary.LittleEndian.Uint64(buf)` for a `buf` of at least 8 bytes. -/
def Uint64 (buf : List Byte) : Nat := leValue (buf.take 8)

/-- The four bytes `binary.LittleEndian.PutUint32(sb, v)` stores. -/
def PutUint32 (v : Nat) : List Byte :=
  [byte v, byte (v / 256), byte (v / 65536), byte (v / 16777216)]

/-! ## The stream -/

/-- The function `io.ReadFull` on a buffer of `n` bytes: the `n` bytes and the rest of
the stream, or `none` (an error) when the stream ends first. -/
def ReadFull (n : Nat) (s : List Byte) : Option (List Byte × List Byte) :=
  if n ≤ s.length then some (s.take n, s.drop n) else none

/-- The call `m.rw.Write(b)`: whether it reports an error, and the stream afterwards. -/
def Transport.Write (rw : Transport) (b : List Byte) : Bool × Transport :=
  (rw.werr, { rw with wr := rw.wr ++ b })

/-! ## Receive -/

/-- Lines 96-124 of `Receive`: the length prefix and the payload. Yields `needAck`,
`size`, `buf` and the rest of the stream, or `none` when a read fails. The loop
`for left > 0` runs once when `size > 0` (`io.ReadFull` fills the buffer or fails) and
not at all when `size = 0`. -/
def readFrame (s : List Byte) : Option (Bool × Nat × List Byte × List Byte) :=
  match ReadFull 1 s with
  | none => none
  | some (b, s1) =>
    let needAck := (b.headD 0).val >>> 7 == 1
    let b0 := (b.headD 0).val &&& 0x7f
    let sized : Option (Nat × List Byte) :=
      if b0 < 0xf7 then
        some (b0 <<< 2, s1)
      else
        match ReadFull 3 s1 with
        | none => none
        | some (b, s2) =>
          some (((b.getD 0 0).val ||| (b.getD 1 0).val <<< 8 ||| (b.getD 2 0).val <<< 16) <<< 2,
            s2)
    match sized with
    | none => none
    | some (size, s2) =>
      if 0 < size then
        match ReadFull size s2 with
        | none => none
        | some (buf, s3) => some (needAck, size, buf, s3)
      else
        some (needAck, size, [], s2)

/-- Lines 153-163 of `Receive`: the key binding for key identifier `authKeyId`. Yields
the codec after the binding, or the error. -/
def bindKey {UB EB E : Type} (env : Env UB EB E) (m : MTProtoCodec) (authKeyId : Int) :
    Except (CodecError E) MTProtoCodec :=
  if m.AuthKeyId = 0 then
    match env.GetAuthKey authKeyId with
    | none => .error (.noAuthKey authKeyId)
    | some key => .ok { m with AuthKeyId := authKeyId, AuthKey := some key }
  else if m.AuthKeyId ≠ authKeyId then
    .error (.keyError m.AuthKeyId authKeyId)
  else
    .ok m

/-- The method `MTProtoCodec.Receive`: the outcome, the codec and the stream after the
call. A failed read leaves nothing on the read side. Of an error text only the values
it is built from are kept. -/
def Receive {UB EB E : Type} (env : Env UB EB E) (m : MTProtoCodec) (rw : Transport) :
    Outcome UB EB E × MTProtoCodec × Transport :=
  match readFrame rw.rd with
  | none => (.error .stream, m, { rw with rd := [] })
  | some (needAck, size, buf, rest) =>
    let rw1 : Transport := { rw with rd := rest }
    if size = 4 then
      (.error (.quickAck m.SessionId), m, rw1)
    else if buf.length < 8 then
      -- `binary.LittleEndian.Uint64(buf)` on fewer than 8 bytes
      (.indexOutOfRange, m, rw1)
    else
      let authKeyId := int64 (Uint64 buf)
      if authKeyId = 0 then
        match env.decodeUnencrypted (buf.drop 8) with
        | .error e => (.error (.decode e), m, rw1)
        | .ok body => (.ok (.unencrypted { NeedAck := needAck, body := body }), m, rw1)
      else if m.State ≠ CODEC_AUTH_KEY_OK ∧ m.State ≠ CODEC_resPQ ∧ m.State ≠ CODEC_dh_gen_ok then
        (.error (.invalidState m.State), m, rw1)
      else
        match bindKey env m authKeyId with
        | .error e => (.error e, m, rw1)
        | .ok m1 =>
          match env.decodeEncrypted m1.AuthKey (buf.drop 8) with
          | .error e => (.error (.decode e), m1, rw1)
          | .ok message =>
            if m1.State ≠ CODEC_AUTH_KEY_OK then
              (.ok (.encrypted message), { m1 with State := CODEC_AUTH_KEY_OK }, rw1)
            else
              (.ok (.encrypted message), m1, rw1)

/-! ## Send -/

/-- Lines 186-194 and 212-220 of `Send`: the length prefix `sb` for `size` words. -/
def sizePrefix (size : Nat) : List Byte :=
  if size < 127 then [byte size] else PutUint32 ((size <<< 8 ||| 127) % 4294967296)

/-- Lines 186-202 and 212-228 of `Send`: frame the encoded bytes `b` and write them. -/
def writeFrame {E : Type} (rw : Transport) (b : List Byte) :
    Option (CodecError E) × Transport :=
  let size := b.length / 4
  let sb := sizePrefix size
  match rw.Write (sb ++ b) with
  | (true, rw1) => (some .stream, rw1)
  | (false, rw1) => (none, rw1)

/-- The method `MTProtoCodec.Send`: the error (`none` for `nil`), the codec and the
stream after the call, and the value `msg` as the call leaves it (an
`EncryptedMessage2` is stamped in place). -/
def Send {UB EB E : Type} (env : Env UB EB E) (m : MTProtoCodec) (rw : Transport)
    (msg : Msg UB EB) : Option (CodecError E) × MTProtoCodec × Transport × Msg UB EB :=
  match msg with
  | .unencrypted um =>
    let b := env.encodeUnencrypted um
    let r := writeFrame rw b
    (r.1, m, r.2, .unencrypted um)
  | .encrypted em =>
    let m1 : MTProtoCodec := { m with SeqNo := int32 (m.SeqNo + 1) }
    let em1 : EncryptedMessage2 EB :=
      { em with SessionId := m.SessionId, salt := m.Salt, SeqNo := m1.SeqNo }
    let b := env.encodeEncrypted em1 m1.AuthKeyId m1.AuthKey
    let r := writeFrame rw b
    (r.1, m1, r.2, .encrypted em1)
  | .other => (some .msgType, m, rw, .other)

/-- The bytes a call of `Send` hands to `Write`: what the call appends to `wr`. -/
def sentBy {UB EB E : Type} (env : Env UB EB E) (m : MTProtoCodec) (rw : Transport)
    (msg : Msg UB EB) : List Byte :=
  (Send env m rw msg).2.2.1.wr.drop rw.wr.length

/-! ## Concrete collaborators used at the concrete inputs below -/

/-- Collaborators with bodies of type `Unit`: the encoders return fixed byte strings,
the decoders accept every input, the key store holds `key` under every identifier. -/
def fixedEnv (unenc enc : List Byte) (key : Option (List Byte)) : Env Unit Unit Unit where
  GetAuthKey := fun _ => key
  decodeUnencrypted := fun _ => .ok ()
  decodeEncrypted := fun _ _ => .ok { SessionId := 0, salt := 0, SeqNo := 0, body := () }
  encodeUnencrypted := fun _ => unenc
  encodeEncrypted := fun _ _ _ => enc

/-- Collaborators whose key store holds `key` under every identifier and whose encrypted
decoder rejects every input. -/
def rejectingEnv (key : Option (List Byte)) : Env Unit Unit Unit where
  GetAuthKey := fun _ => key
  decodeUnencrypted := fun _ => .ok ()
  decodeEncrypted := fun _ _ => .error ()
  encodeUnencrypted := fun _ => []
  encodeEncrypted := fun _ _ _ => []

/-- The codec `NewCodec` builds: state `CODEC_CONNECTED`, every other field zero. -/
def NewCodec : MTProtoCodec :=
  { State := CODEC_CONNECTED, AuthKeyId := 0, AuthKey := none, Salt := 0, SessionId := 0,
    SeqNo := 0 }

/-- A stream on which the bytes `s` arrive and nothing has been written. -/
def streamOf (s : List Byte) : Transport := { rd := s, wr := [], werr := false }

/-! ## Sequences of calls -/

/-- One call on a codec, with the collaborators and the stream as the call finds them.
Between two calls bytes arrive, the peer may close and the key store may change, so each
call has its own stream and collaborators. -/
inductive Call (UB EB E : Type) where
  | receive (env : Env UB EB E) (rw : Transport)
  | send (env : Env UB EB E) (rw : Transport) (msg : Msg UB EB)

/-- The codec after a call. -/
def Call.codecAfter {UB EB E : Type} (m : MTProtoCodec) : Call UB EB E → MTProtoCodec
  | .receive env rw => (Receive env m rw).2.1
  | .send env rw msg => (Send env m rw msg).2.1

/-- Whether the call is a `Send` of an Encrypted message. -/
def Call.isEncryptedSend {UB EB E : Type} : Call UB EB E → Bool
  | .send _ _ (.encrypted _) => true
  | _ => false

/-- The `SeqNo` a call stamps on an Encrypted message: the field of the message as
`Send` leaves it; `none` for every other call. -/
def Call.stamped {UB EB E : Type} (m : MTProtoCodec) : Call UB EB E → Option Int
  | .send env rw (.encrypted em) =>
    match (Send env m rw (.encrypted em)).2.2.2 with
    | .encrypted em1 => some em1.SeqNo
    | _ => none
  | _ => none

/-- The codec after a sequence of calls, made one after the other. -/
def runCalls {UB EB E : Type} (m : MTProtoCodec) : List (Call UB EB E) → MTProtoCodec
  | [] => m
  | c :: cs => runCalls (c.codecAfter m) cs

/-- The values of `SeqNo` along a sequence of calls: before the first call and after
each call. -/
def seqNoTrace {UB EB E : Type} (m : MTProtoCodec) : List (Call UB EB E) → List Int
  | [] => [m.SeqNo]
  | c :: cs => m.SeqNo :: seqNoTrace (c.codecAfter m) cs

/-- The `SeqNo` values stamped on the Encrypted messages sent in a sequence of calls, in
the order of the calls. -/
def stampsOf {UB EB E : Type} (m : MTProtoCodec) : List (Call UB EB E) → List Int
  | [] => []
  | c :: cs =>
    match c.stamped m with
    | some v => v :: stampsOf (c.codecAfter m) cs
    | none => stampsOf (c.codecAfter m) cs

/-! ## Arithmetic of the length prefix -/

theorem and_0x7f (x : Nat) : x &&& 0x7f = x % 128 :=
  Nat.and_pow_two_sub_one_eq_mod x 7

theorem shiftRight7_eq_one (x : Nat) (h : x < 256) : (x >>> 7 == 1) = decide (128 ≤ x) := by
  rw [Nat.shiftRight_eq_div_pow]
  by_cases h1 : 128 ≤ x
  · have h2 : x / 2 ^ 7 = 1 := by omega
    simp only [h2, h1]; rfl
  · have h2 : x / 2 ^ 7 = 0 := by omega
    simp only [h2, h1]; rfl

theorem testBit7_eq (x : Nat) (h : x < 256) : x.testBit 7 = decide (128 ≤ x) := by
  rw [Nat.testBit_to_div_mod]
  by_cases h1 : 128 ≤ x
  · have h2 : x / 2 ^ 7 % 2 = 1 := by omega
    simp only [h2, h1]
  · have h2 : x / 2 ^ 7 % 2 = 0 := by omega
    simp only [h2, h1]; rfl

theorem shiftLeft8_or_127 (w : Nat) : w <<< 8 ||| 127 = w * 256 + 127 := by
  rw [Nat.shiftLeft_eq]
  have h := @Nat.mul_add_lt_is_or 8 127 (by norm_num) w
  rw [Nat.mul_comm] at h
  exact h.symm

/-- The frame reader on a non-empty stream: the low seven bits of the first byte are the
word count, whatever their value. -/
theorem readFrame_cons (b0 : Byte) (s : List Byte) :
    readFrame (b0 :: s) =
      if 4 * (b0.val % 128) ≤ s.length then
        some (decide (128 ≤ b0.val), 4 * (b0.val % 128), s.take (4 * (b0.val % 128)),
          s.drop (4 * (b0.val % 128)))
      else none := by
  have hlt : b0.val % 128 < 0xf7 := by omega
  have hsh : (b0.val % 128) <<< 2 = 4 * (b0.val % 128) := by
    rw [Nat.shiftLeft_eq]; omega
  simp only [readFrame, ReadFull, List.length_cons, Nat.le_add_left, if_true, List.take_succ_cons,
    List.take_zero, List.drop_succ_cons, List.drop_zero, List.headD_cons, and_0x7f, hlt, hsh,
    shiftRight7_eq_one b0.val b0.isLt]
  by_cases h0 : 0 < 4 * (b0.val % 128)
  · simp only [h0, if_true]
    by_cases h1 : 4 * (b0.val % 128) ≤ s.length
    · simp only [h1, if_true]
    · simp only [h1, if_false]
  · have h2 : 4 * (b0.val % 128) = 0 := by omega
    simp [h2]

/-- The frame reader on a frame `b0 :: payload` followed by `rest`, when the low seven
bits of `b0` count the words of `payload`. -/
theorem readFrame_frame (b0 : Byte) (payload rest : List Byte)
    (h : payload.length = 4 * (b0.val % 128)) :
    readFrame (b0 :: (payload ++ rest)) =
      some (decide (128 ≤ b0.val), payload.length, payload, rest) := by
  rw [readFrame_cons, ← h]
  simp

/-! ## Send: the frame written -/

theorem writeFrame_snd {E : Type} (rw : Transport) (b : List Byte) :
    (writeFrame rw b : Option (CodecError E) × Transport).2 =
      { rw with wr := rw.wr ++ (sizePrefix (b.length / 4) ++ b) } := by
  unfold writeFrame Transport.Write
  cases rw.werr <;> rfl

theorem writeFrame_fst {E : Type} (rw : Transport) (b : List Byte) :
    (writeFrame rw b : Option (CodecError E) × Transport).1 =
      if rw.werr then some .stream else none := by
  unfold writeFrame Transport.Write
  cases rw.werr <;> rfl

theorem sentBy_unencrypted {UB EB E : Type} (env : Env UB EB E) (m : MTProtoCodec)
    (rw : Transport) (um : UnencryptedMessage UB) :
    sentBy env m rw (.unencrypted um) =
      sizePrefix ((env.encodeUnencrypted um).length / 4) ++ env.encodeUnencrypted um := by
  simp [sentBy, Send, writeFrame_snd]

theorem sentBy_encrypted {UB EB E : Type} (env : Env UB EB E) (m : MTProtoCodec)
    (rw : Transport) (em : EncryptedMessage2 EB) :
    sentBy env m rw (.encrypted em) =
      sizePrefix ((env.encodeEncrypted
          { em with SessionId := m.SessionId, salt := m.Salt, SeqNo := int32 (m.SeqNo + 1) }
          m.AuthKeyId m.AuthKey).length / 4) ++
        env.encodeEncrypted
          { em with SessionId := m.SessionId, salt := m.Salt, SeqNo := int32 (m.SeqNo + 1) }
          m.AuthKeyId m.AuthKey := by
  simp [sentBy, Send, writeFrame_snd]

/-- The values of the bytes of the length prefix for a word count below `2^24`. -/
theorem sizePrefix_val (w : Nat) (hw : w < 16777216) :
    (sizePrefix w).map Fin.val =
      if w < 127 then [w] else [127, w % 256, w / 256 % 256, w / 65536 % 256] := by
  unfold sizePrefix
  by_cases h : w < 127
  · simp only [h, if_true, List.map_cons, List.map_nil, byte]
    have h1 : w % 256 = w := by omega
    simp [h1]
  · simp only [h, if_false, PutUint32, List.map_cons, List.map_nil, byte, shiftLeft8_or_127]
    have h0 : (w * 256 + 127) % 4294967296 = w * 256 + 127 := by omega
    rw [h0]
    have h1 : (w * 256 + 127) % 256 = 127 := by omega
    have h2 : (w * 256 + 127) / 256 % 256 = w % 256 := by omega
    have h3 : (w * 256 + 127) / 65536 % 256 = w / 256 % 256 := by omega
    have h4 : (w * 256 + 127) / 16777216 % 256 = w / 65536 % 256 := by omega
    simp [h1, h2, h3, h4]

theorem sizePrefix_small (w : Nat) (hw : w < 127) : sizePrefix w = [byte w] := by
  simp [sizePrefix, hw]

/-! ## Receive: the key identifier -/

theorem Uint64_of_zero_prefix (buf : List Byte) (h : buf.take 8 = List.replicate 8 0) :
    int64 (Uint64 buf) = 0 := by
  unfold Uint64
  rw [h]
  decide

/-! ## C1: round trip of an Unencrypted message -/

/-- C1, as stated, fails. First input: the encoding is the 4 bytes `0,0,0,0` (one word)
and the decoder accepts the bytes after the first 8; `Send` writes `1,0,0,0,0` and
`Receive` on exactly these bytes returns the quick-ack error, no message. Second
input: the encoding is the 8 bytes `1,0,0,0,0,0,0,0` (two words); `Receive` on the bytes
`Send` wrote reads the key identifier 1 and returns the invalid-state error. -/
theorem unencrypted_roundtrip_counterexample :
    ((fixedEnv [0, 0, 0, 0] [] none).encodeUnencrypted ⟨false, ()⟩).length = 4 * 1 ∧
    (fixedEnv [0, 0, 0, 0] [] none).decodeUnencrypted
      (((fixedEnv [0, 0, 0, 0] [] none).encodeUnencrypted ⟨false, ()⟩).drop 8) = .ok () ∧
    sentBy (fixedEnv [0, 0, 0, 0] [] none) NewCodec (streamOf []) (.unencrypted ⟨false, ()⟩)
      = [1, 0, 0, 0, 0] ∧
    Receive (fixedEnv [0, 0, 0, 0] [] none) NewCodec (streamOf [1, 0, 0, 0, 0])
      = (.error (.quickAck 0), NewCodec, streamOf []) ∧
    ((fixedEnv [1, 0, 0, 0, 0, 0, 0, 0] [] none).encodeUnencrypted ⟨false, ()⟩).length
      = 4 * 2 ∧
    sentBy (fixedEnv [1, 0, 0, 0, 0, 0, 0, 0] [] none) NewCodec (streamOf [])
      (.unencrypted ⟨false, ()⟩) = [2, 1, 0, 0, 0, 0, 0, 0, 0] ∧
    Receive (fixedEnv [1, 0, 0, 0, 0, 0, 0, 0] [] none) NewCodec
      (streamOf [2, 1, 0, 0, 0, 0, 0, 0, 0])
      = (.error (.invalidState CODEC_CONNECTED), NewCodec, streamOf []) := by
  refine ⟨by decide, rfl, by decide, by decide, by decide, by decide, by decide⟩

/-- C1, amended. For an Unencrypted message whose encoding is `4*w` bytes with
`0 ≤ w ≤ 126`, `Send` writes one length byte equal to `w` followed by the encoding.
Run on exactly these bytes, `Receive` returns the quick-ack error when `w = 1`; when
`2 ≤ w`, the first 8 bytes of the encoding are zero and the decoder inverts the encoder
on the bytes after the first 8, it returns an Unencrypted message with the same body
(and `NeedAck` false), leaves the codec as it was and the stream empty. -/
theorem unencrypted_roundtrip {UB EB E : Type} (env : Env UB EB E) (m m2 : MTProtoCodec)
    (rw rw2 : Transport) (msg : UnencryptedMessage UB) (w : Nat)
    (hlen : (env.encodeUnencrypted msg).length = 4 * w) (hw : w ≤ 126)
    (hrd : rw2.rd = sentBy env m rw (.unencrypted msg)) :
    (∃ b0 : Byte, b0.val = w ∧
      sentBy env m rw (.unencrypted msg) = b0 :: env.encodeUnencrypted msg) ∧
    (w = 1 → Receive env m2 rw2 =
      (.error (.quickAck m2.SessionId), m2, { rw2 with rd := [] })) ∧
    (2 ≤ w → (env.encodeUnencrypted msg).take 8 = List.replicate 8 0 →
      env.decodeUnencrypted ((env.encodeUnencrypted msg).drop 8) = .ok msg.body →
      Receive env m2 rw2 =
        (.ok (.unencrypted { NeedAck := false, body := msg.body }), m2,
          { rw2 with rd := [] })) := by
  have hsize : (env.encodeUnencrypted msg).length / 4 = w := by omega
  have hsent : sentBy env m rw (.unencrypted msg) = byte w :: env.encodeUnencrypted msg := by
    rw [sentBy_unencrypted, hsize, sizePrefix_small w (by omega)]; rfl
  have hval : (byte w).val = w := by simp only [byte]; omega
  have hmod : (byte w).val % 128 = w := by rw [hval]; omega
  have hframe : readFrame rw2.rd =
      some (false, (env.encodeUnencrypted msg).length, env.encodeUnencrypted msg, []) := by
    have h := readFrame_frame (byte w) (env.encodeUnencrypted msg) [] (by rw [hmod, hlen])
    rw [List.append_nil] at h
    rw [hrd, hsent, h, hval]
    have h128 : ¬ 128 ≤ w := by omega
    simp [h128]
  refine ⟨⟨byte w, hval, hsent⟩, ?_, ?_⟩
  · intro h1
    subst h1
    simp [Receive, hframe, hlen]
  · intro h2 hzero hdec
    have hne : ¬ (4 * w = 4) := by omega
    have hlt : ¬ (4 * w < 8) := by omega
    simp [Receive, hframe, hlen, hne, hlt, Uint64_of_zero_prefix _ hzero, hdec]

/-- C1, amended, at a concrete input: an encoding of 8 zero bytes (two words). -/
theorem unencrypted_roundtrip_witness :
    Receive (fixedEnv (List.replicate 8 0) [] none) NewCodec
        (streamOf (sentBy (fixedEnv (List.replicate 8 0) [] none) NewCodec (streamOf [])
          (.unencrypted ⟨true, ()⟩))) =
      (.ok (.unencrypted { NeedAck := false, body := () }), NewCodec, streamOf []) :=
  (unencrypted_roundtrip (fixedEnv (List.replicate 8 0) [] none) NewCodec NewCodec
    (streamOf []) (streamOf (sentBy (fixedEnv (List.replicate 8 0) [] none) NewCodec
      (streamOf []) (.unencrypted ⟨true, ()⟩))) ⟨true, ()⟩ 2 (by decide) (by decide) rfl).2.2
    (by decide) (by decide) rfl

/-! ## C2: the three-byte length on receive -/

/-- C2, the code at the failing input. `Receive` masks the first byte with `0x7f` and
compares the result with `0xf7`, so the first byte `0x7F` is taken as the word count
127: the frame reader takes the next 508 bytes as the payload, whatever they are. On the
stream `0x7F, 0x80, 0x00, 0x00` followed by 512 zero bytes (a frame of word count 128
in the format `Send` writes) the payload read is the 508 bytes starting at `0x80`, 7
bytes stay unread, and `Receive` on a new codec answers with the invalid-state error for
the key identifier `0x80`. -/
theorem receive_marker_taken_as_word_count :
    (∀ s : List Byte, readFrame (0x7F :: s) =
      if 508 ≤ s.length then some (false, 508, s.take 508, s.drop 508) else none) ∧
    readFrame ([0x7F, 0x80, 0x00, 0x00] ++ List.replicate 512 0) =
      some (false, 508, [0x80, 0x00, 0x00] ++ List.replicate 505 0, List.replicate 7 0) ∧
    Receive (fixedEnv [] [] none) NewCodec
        (streamOf ([0x7F, 0x80, 0x00, 0x00] ++ List.replicate 512 0)) =
      (.error (.invalidState CODEC_CONNECTED), NewCodec, streamOf (List.replicate 7 0)) := by
  have hgen : ∀ s : List Byte, readFrame (0x7F :: s) =
      if 508 ≤ s.length then some (false, 508, s.take 508, s.drop 508) else none := by
    intro s
    rw [readFrame_cons]
    rfl
  have hlen : ([0x80, 0x00, 0x00] ++ List.replicate 505 0 : List Byte).length = 508 := by
    rw [List.length_append, List.length_replicate]; rfl
  have hone : readFrame ([0x7F, 0x80, 0x00, 0x00] ++ List.replicate 512 0) =
      some (false, 508, [0x80, 0x00, 0x00] ++ List.replicate 505 0, List.replicate 7 0) := by
    have h := readFrame_frame 0x7F ([0x80, 0x00, 0x00] ++ List.replicate 505 0)
      (List.replicate 7 0) (by rw [hlen]; rfl)
    have hs : ([0x7F, 0x80, 0x00, 0x00] ++ List.replicate 512 0 : List Byte) =
        0x7F :: (([0x80, 0x00, 0x00] ++ List.replicate 505 0) ++ List.replicate 7 0) := by
      rw [List.append_assoc, List.append_replicate_replicate]; rfl
    rw [hs, h, hlen]
    rfl
  refine ⟨hgen, hone, ?_⟩
  have hkey : int64 (Uint64 ([0x80, 0x00, 0x00] ++ List.replicate 505 0)) = 128 := by
    have ht : ([0x80, 0x00, 0x00] ++ List.replicate 505 (0 : Byte)).take 8 =
        [0x80, 0, 0, 0, 0, 0, 0, 0] := rfl
    unfold Uint64
    rw [ht]
    decide
  have h4 : ¬ ((508 : Nat) = 4) := by decide
  have h8 : ¬ ((508 : Nat) < 8) := by decide
  have hk : ¬ ((128 : Int) = 0) := by decide
  have hst : NewCodec.State ≠ CODEC_AUTH_KEY_OK ∧ NewCodec.State ≠ CODEC_resPQ ∧
      NewCodec.State ≠ CODEC_dh_gen_ok := by decide
  simp only [Receive, streamOf, hone, hlen, hkey, h4, h8, hk, hst, if_true, if_false, and_self]
  rfl

/-! ## C3: the length prefix on send -/

/-- C3. For a message of either variant whose encoded body `b` has word count
`w = len(b)/4 < 2^24`, the bytes `Send` hands to `Write` are `prefix ++ b`; the prefix is
the single byte `w` when `w < 127` and otherwise the four bytes `0x7F`, `w mod 256`,
`(w / 256) mod 256`, `(w / 65536) mod 256`; for `w = 128` it is `0x7F, 0x80, 0, 0`. The
body of an Encrypted message is the encoding of the message as `Send` stamps it. -/
theorem send_length_prefix {UB EB E : Type} (env : Env UB EB E) (m : MTProtoCodec)
    (rw : Transport) (w : Nat) (hw : w < 16777216) :
    (∀ um : UnencryptedMessage UB, (env.encodeUnencrypted um).length / 4 = w →
      sentBy env m rw (.unencrypted um) = sizePrefix w ++ env.encodeUnencrypted um) ∧
    (∀ (em : EncryptedMessage2 EB) (b : List Byte),
      b = env.encodeEncrypted
          { em with SessionId := m.SessionId, salt := m.Salt, SeqNo := int32 (m.SeqNo + 1) }
          m.AuthKeyId m.AuthKey →
      b.length / 4 = w →
      sentBy env m rw (.encrypted em) = sizePrefix w ++ b) ∧
    (sizePrefix w).map Fin.val =
      (if w < 127 then [w] else [127, w % 256, w / 256 % 256, w / 65536 % 256]) ∧
    sizePrefix 128 = [0x7F, 0x80, 0x00, 0x00] := by
  refine ⟨?_, ?_, sizePrefix_val w hw, by decide⟩
  · intro um h
    rw [sentBy_unencrypted, h]
  · intro em b hb h
    rw [sentBy_encrypted, ← hb, h]

set_option maxRecDepth 8192 in
/-- C3 at a concrete input: bodies of 512 bytes (128 words), of either variant. -/
theorem send_length_prefix_witness :
    sentBy (fixedEnv (List.replicate 512 0) (List.replicate 512 1) none) NewCodec
        (streamOf []) (.unencrypted ⟨false, ()⟩) =
      [0x7F, 0x80, 0x00, 0x00] ++ List.replicate 512 0 ∧
    sentBy (fixedEnv (List.replicate 512 0) (List.replicate 512 1) none) NewCodec
        (streamOf []) (.encrypted ⟨0, 0, 0, ()⟩) =
      [0x7F, 0x80, 0x00, 0x00] ++ List.replicate 512 1 := by
  have h := send_length_prefix (fixedEnv (List.replicate 512 0) (List.replicate 512 1) none)
    NewCodec (streamOf []) 128 (by decide)
  have h0 : (List.replicate 512 (0 : Byte)).length / 4 = 128 := by
    rw [List.length_replicate]
  have h1 : (List.replicate 512 (1 : Byte)).length / 4 = 128 := by
    rw [List.length_replicate]
  exact ⟨(h.1 ⟨false, ()⟩ h0).trans (congrArg (fun p => p ++ List.replicate 512 0) h.2.2.2),
    (h.2.1 ⟨0, 0, 0, ()⟩ (List.replicate 512 1) rfl h1).trans
      (congrArg (fun p => p ++ List.replicate 512 1) h.2.2.2)⟩

/-! ## C4: the quick-ack frame -/

/-- C4. For every codec (every connection state), every first byte with length field 1
(either value of the quick-ack bit) and every 4 payload bytes, `Receive` returns the
quick-ack error, no message, and leaves the codec (state and key binding included)
unchanged; the frame is consumed. -/
theorem receive_quick_ack {UB EB E : Type} (env : Env UB EB E) (m : MTProtoCodec)
    (rw : Transport) (b0 : Byte) (payload rest : List Byte)
    (hb0 : b0.val % 128 = 1) (hlen : payload.length = 4)
    (hrd : rw.rd = b0 :: (payload ++ rest)) :
    Receive env m rw = (.error (.quickAck m.SessionId), m, { rw with rd := rest }) := by
  have hframe := readFrame_frame b0 payload rest (by rw [hlen, hb0])
  simp [Receive, hrd, hframe, hlen]

/-- C4 at a concrete input: the frame `0x81, 1, 2, 3, 4` in state `CODEC_AUTH_KEY_OK`
with a bound key. -/
theorem receive_quick_ack_witness :
    Receive (fixedEnv [] [] (some [7]))
        { State := CODEC_AUTH_KEY_OK, AuthKeyId := 5, AuthKey := some [7], Salt := 1,
          SessionId := 2, SeqNo := 3 }
        (streamOf [0x81, 1, 2, 3, 4, 9]) =
      (.error (.quickAck 2),
        { State := CODEC_AUTH_KEY_OK, AuthKeyId := 5, AuthKey := some [7], Salt := 1,
          SessionId := 2, SeqNo := 3 },
        streamOf [9]) :=
  receive_quick_ack (fixedEnv [] [] (some [7])) _ (streamOf [0x81, 1, 2, 3, 4, 9]) 0x81
    [1, 2, 3, 4] [9] (by decide) (by decide) rfl

/-! ## C5: key identifier zero -/

/-- C5. For every codec (every connection state, `CODEC_ERROR` or not) and every frame
whose payload has at least 8 bytes, the first 8 of them zero, `Receive` hands
`payload[8:]` to the Unencrypted decoder; when the decoder succeeds it returns an
Unencrypted message with the decoded body whose `NeedAck` is bit 7 of the first length
byte, and when the decoder fails it returns the decoder's error. The codec is unchanged,
and the outcome is the same for every key store and every encrypted decoder: neither is
consulted. -/
theorem receive_zero_key_id {UB EB E : Type} (env : Env UB EB E) (m : MTProtoCodec)
    (rw : Transport) (b0 : Byte) (payload rest : List Byte)
    (hlen : payload.length = 4 * (b0.val % 128)) (h8 : 8 ≤ payload.length)
    (hzero : payload.take 8 = List.replicate 8 0)
    (hrd : rw.rd = b0 :: (payload ++ rest)) :
    Receive env m rw =
      (match env.decodeUnencrypted (payload.drop 8) with
        | .ok body => .ok (.unencrypted { NeedAck := b0.val.testBit 7, body := body })
        | .error e => .error (.decode e),
       m, { rw with rd := rest }) ∧
    ∀ env2 : Env UB EB E, env2.decodeUnencrypted = env.decodeUnencrypted →
      Receive env2 m rw = Receive env m rw := by
  have hframe := readFrame_frame b0 payload rest hlen
  have h4 : ¬ (payload.length = 4) := by omega
  have hlt : ¬ (payload.length < 8) := by omega
  have hmain : ∀ env1 : Env UB EB E, Receive env1 m rw =
      (match env1.decodeUnencrypted (payload.drop 8) with
        | .ok body => .ok (.unencrypted { NeedAck := b0.val.testBit 7, body := body })
        | .error e => .error (.decode e),
       m, { rw with rd := rest }) := by
    intro env1
    simp only [Receive, hrd, hframe, h4, hlt, Uint64_of_zero_prefix _ hzero, if_true, if_false,
      testBit7_eq b0.val b0.isLt]
    cases env1.decodeUnencrypted (payload.drop 8) <;> rfl
  refine ⟨hmain env, ?_⟩
  intro env2 h2
  rw [hmain env2, hmain env, h2]

/-- C5 at a concrete input: the frame `0x82` followed by 8 zero bytes, on a new codec
(state `CODEC_CONNECTED`). -/
theorem receive_zero_key_id_witness :
    Receive (fixedEnv [] [] none) NewCodec (streamOf [0x82, 0, 0, 0, 0, 0, 0, 0, 0]) =
      (.ok (.unencrypted { NeedAck := true, body := () }), NewCodec, streamOf []) :=
  (receive_zero_key_id (fixedEnv [] [] none) NewCodec
    (streamOf [0x82, 0, 0, 0, 0, 0, 0, 0, 0]) 0x82
    [0, 0, 0, 0, 0, 0, 0, 0] [] (by decide) (by decide) (by decide) rfl).1

/-! ## C6 - C9: a nonzero key identifier -/

/-- C6. For every frame whose first 8 payload bytes form a nonzero key identifier and
every codec whose state is none of `CODEC_AUTH_KEY_OK`, `CODEC_resPQ`, `CODEC_dh_gen_ok`,
`Receive` returns the invalid-state error, no message, and leaves the codec (`State`,
`AuthKeyId`, `AuthKey` included) unchanged, for every key store and decoder. -/
theorem receive_invalid_state {UB EB E : Type} (env : Env UB EB E) (m : MTProtoCodec)
    (rw : Transport) (b0 : Byte) (payload rest : List Byte)
    (hlen : payload.length = 4 * (b0.val % 128)) (h8 : 8 ≤ payload.length)
    (hkey : int64 (Uint64 payload) ≠ 0)
    (hst : m.State ≠ CODEC_AUTH_KEY_OK ∧ m.State ≠ CODEC_resPQ ∧ m.State ≠ CODEC_dh_gen_ok)
    (hrd : rw.rd = b0 :: (payload ++ rest)) :
    Receive env m rw = (.error (.invalidState m.State), m, { rw with rd := rest }) := by
  have hframe := readFrame_frame b0 payload rest hlen
  have h4 : ¬ (payload.length = 4) := by omega
  have hlt : ¬ (payload.length < 8) := by omega
  simp only [Receive, hrd, hframe, h4, hlt, hkey, hst, if_true, if_false, and_self, ne_eq,
    not_false_eq_true]

/-- C6 at a concrete input: key identifier 1 on a new codec whose key store holds a key
and whose decoder accepts everything. -/
theorem receive_invalid_state_witness :
    Receive (fixedEnv [] [] (some [7])) NewCodec (streamOf [2, 1, 0, 0, 0, 0, 0, 0, 0]) =
      (.error (.invalidState CODEC_CONNECTED), NewCodec, streamOf []) :=
  receive_invalid_state (fixedEnv [] [] (some [7])) NewCodec
    (streamOf [2, 1, 0, 0, 0, 0, 0, 0, 0]) 2 [1, 0, 0, 0, 0, 0, 0, 0] [] (by decide)
    (by decide) (by decide) (by decide) rfl

/-- C7. For every codec with no key bound (`AuthKeyId = 0`) in a permitted state, and
every frame with nonzero key identifier `k` that the key store resolves to `K` and whose
body the encrypted decoder accepts under `K`, `Receive` returns the message decoded
from `payload[8:]` with `K`, and afterwards `AuthKeyId = k`, `AuthKey = K` and
`State = CODEC_AUTH_KEY_OK`; the other fields are unchanged. -/
theorem receive_binds_key {UB EB E : Type} (env : Env UB EB E) (m : MTProtoCodec)
    (rw : Transport) (b0 : Byte) (payload rest : List Byte) (k : Int) (K : List Byte)
    (message : EncryptedMessage2 EB)
    (hlen : payload.length = 4 * (b0.val % 128)) (h8 : 8 ≤ payload.length)
    (hk : int64 (Uint64 payload) = k) (hk0 : k ≠ 0)
    (hunbound : m.AuthKeyId = 0)
    (hst : m.State = CODEC_AUTH_KEY_OK ∨ m.State = CODEC_resPQ ∨ m.State = CODEC_dh_gen_ok)
    (hres : env.GetAuthKey k = some K)
    (hdec : env.decodeEncrypted (some K) (payload.drop 8) = .ok message)
    (hrd : rw.rd = b0 :: (payload ++ rest)) :
    Receive env m rw =
      (.ok (.encrypted message),
        { m with AuthKeyId := k, AuthKey := some K, State := CODEC_AUTH_KEY_OK },
        { rw with rd := rest }) := by
  have hframe := readFrame_frame b0 payload rest hlen
  have h4 : ¬ (payload.length = 4) := by omega
  have hlt : ¬ (payload.length < 8) := by omega
  have hperm : ¬ (m.State ≠ CODEC_AUTH_KEY_OK ∧ m.State ≠ CODEC_resPQ ∧
      m.State ≠ CODEC_dh_gen_ok) := by
    rcases hst with h | h | h <;> simp [h]
  simp only [Receive, hrd, hframe, h4, hlt, hk, hk0, hperm, bindKey, hunbound, hres, hdec,
    if_true, if_false]
  by_cases hs : m.State = CODEC_AUTH_KEY_OK
  · simp [hs]
  · simp [hs]

/-- C7 at a concrete input: key identifier 1, key `7`, in state `CODEC_resPQ`. -/
theorem receive_binds_key_witness :
    Receive (fixedEnv [] [] (some [7]))
        { State := CODEC_resPQ, AuthKeyId := 0, AuthKey := none, Salt := 4, SessionId := 5,
          SeqNo := 6 }
        (streamOf [2, 1, 0, 0, 0, 0, 0, 0, 0]) =
      (.ok (.encrypted { SessionId := 0, salt := 0, SeqNo := 0, body := () }),
        { State := CODEC_AUTH_KEY_OK, AuthKeyId := 1, AuthKey := some [7], Salt := 4,
          SessionId := 5, SeqNo := 6 },
        streamOf []) :=
  receive_binds_key (fixedEnv [] [] (some [7])) _ (streamOf [2, 1, 0, 0, 0, 0, 0, 0, 0]) 2
    [1, 0, 0, 0, 0, 0, 0, 0] [] 1 [7] _ (by decide) (by decide) (by decide) (by decide) rfl
    (by decide) rfl rfl rfl

/-- C8. For every codec with a bound key (`AuthKeyId = k`, `k` nonzero) in a permitted
state, and every frame whose nonzero key identifier differs from `k`, `Receive` returns
the key error and leaves the codec (`AuthKeyId`, `AuthKey` and `State` included)
unchanged, for every key store and every decoder: neither is called. -/
theorem receive_key_mismatch {UB EB E : Type} (env : Env UB EB E) (m : MTProtoCodec)
    (rw : Transport) (b0 : Byte) (payload rest : List Byte) (k : Int)
    (hlen : payload.length = 4 * (b0.val % 128)) (h8 : 8 ≤ payload.length)
    (hkey : int64 (Uint64 payload) ≠ 0)
    (hbound : m.AuthKeyId = k) (hk0 : k ≠ 0) (hne : int64 (Uint64 payload) ≠ k)
    (hst : m.State = CODEC_AUTH_KEY_OK ∨ m.State = CODEC_resPQ ∨ m.State = CODEC_dh_gen_ok)
    (hrd : rw.rd = b0 :: (payload ++ rest)) :
    Receive env m rw =
      (.error (.keyError k (int64 (Uint64 payload))), m, { rw with rd := rest }) := by
  have hframe := readFrame_frame b0 payload rest hlen
  have h4 : ¬ (payload.length = 4) := by omega
  have hlt : ¬ (payload.length < 8) := by omega
  have hperm : ¬ (m.State ≠ CODEC_AUTH_KEY_OK ∧ m.State ≠ CODEC_resPQ ∧
      m.State ≠ CODEC_dh_gen_ok) := by
    rcases hst with h | h | h <;> simp [h]
  have hne2 : ¬ (k = int64 (Uint64 payload)) := fun h => hne h.symm
  simp only [Receive, hrd, hframe, h4, hlt, hkey, hperm, bindKey, hbound, hk0, hne2, ne_eq,
    not_false_eq_true, if_true, if_false]

/-- C8 at a concrete input: key 5 is bound, the frame names key 1; the key store would
resolve it and the decoder would accept the body. -/
theorem receive_key_mismatch_witness :
    Receive (fixedEnv [] [] (some [7]))
        { State := CODEC_AUTH_KEY_OK, AuthKeyId := 5, AuthKey := some [8], Salt := 0,
          SessionId := 0, SeqNo := 0 }
        (streamOf [2, 1, 0, 0, 0, 0, 0, 0, 0]) =
      (.error (.keyError 5 1),
        { State := CODEC_AUTH_KEY_OK, AuthKeyId := 5, AuthKey := some [8], Salt := 0,
          SessionId := 0, SeqNo := 0 },
        streamOf []) :=
  receive_key_mismatch (fixedEnv [] [] (some [7])) _ (streamOf [2, 1, 0, 0, 0, 0, 0, 0, 0]) 2
    [1, 0, 0, 0, 0, 0, 0, 0] [] 5 (by decide) (by decide) (by decide) rfl (by decide)
    (by decide) (by decide) rfl

/-- C9. For every codec with no key bound in a permitted state, and every frame whose
nonzero key identifier the key store cannot resolve (`GetAuthKey` returns `nil`),
`Receive` returns the unknown-key error, no message, and leaves the codec unchanged:
`AuthKeyId` stays 0, `AuthKey` and `State` are as before. -/
theorem receive_unknown_key {UB EB E : Type} (env : Env UB EB E) (m : MTProtoCodec)
    (rw : Transport) (b0 : Byte) (payload rest : List Byte)
    (hlen : payload.length = 4 * (b0.val % 128)) (h8 : 8 ≤ payload.length)
    (hkey : int64 (Uint64 payload) ≠ 0)
    (hunbound : m.AuthKeyId = 0)
    (hst : m.State = CODEC_AUTH_KEY_OK ∨ m.State = CODEC_resPQ ∨ m.State = CODEC_dh_gen_ok)
    (hres : env.GetAuthKey (int64 (Uint64 payload)) = none)
    (hrd : rw.rd = b0 :: (payload ++ rest)) :
    Receive env m rw =
        (.error (.noAuthKey (int64 (Uint64 payload))), m, { rw with rd := rest }) ∧
      (Receive env m rw).2.1.AuthKeyId = 0 := by
  have hframe := readFrame_frame b0 payload rest hlen
  have h4 : ¬ (payload.length = 4) := by omega
  have hlt : ¬ (payload.length < 8) := by omega
  have hperm : ¬ (m.State ≠ CODEC_AUTH_KEY_OK ∧ m.State ≠ CODEC_resPQ ∧
      m.State ≠ CODEC_dh_gen_ok) := by
    rcases hst with h | h | h <;> simp [h]
  have hmain : Receive env m rw =
      (.error (.noAuthKey (int64 (Uint64 payload))), m, { rw with rd := rest }) := by
    simp only [Receive, hrd, hframe, h4, hlt, hkey, hperm, bindKey, hunbound, hres,
      if_true, if_false]
  exact ⟨hmain, by rw [hmain]; exact hunbound⟩

/-- C9 at a concrete input: an empty key store, key identifier 1, state
`CODEC_dh_gen_ok`. -/
theorem receive_unknown_key_witness :
    Receive (fixedEnv [] [] none)
        { State := CODEC_dh_gen_ok, AuthKeyId := 0, AuthKey := none, Salt := 0,
          SessionId := 0, SeqNo := 0 }
        (streamOf [2, 1, 0, 0, 0, 0, 0, 0, 0]) =
      (.error (.noAuthKey 1),
        { State := CODEC_dh_gen_ok, AuthKeyId := 0, AuthKey := none, Salt := 0,
          SessionId := 0, SeqNo := 0 },
        streamOf []) :=
  (receive_unknown_key (fixedEnv [] [] none) _ (streamOf [2, 1, 0, 0, 0, 0, 0, 0, 0]) 2
    [1, 0, 0, 0, 0, 0, 0, 0] [] (by decide) (by decide) (by decide) rfl (by decide) rfl rfl).1

/-! ## C10: stamping on send -/

/-- C10, as stated, fails. On a codec whose `SeqNo` is 2147483647, the largest `int32`,
`Send` of an Encrypted message leaves `SeqNo` at -2147483648 and stamps that value on
the message: it is not the previous value plus 1. -/
theorem send_encrypted_stamps_counterexample :
    (Send (fixedEnv [] [0, 0, 0, 0] none)
        { State := CODEC_AUTH_KEY_OK, AuthKeyId := 5, AuthKey := some [7], Salt := 8,
          SessionId := 9, SeqNo := 2147483647 }
        (streamOf []) (.encrypted ⟨1, 2, 3, ()⟩)).2.1.SeqNo = -2147483648 ∧
    (Send (fixedEnv [] [0, 0, 0, 0] none)
        { State := CODEC_AUTH_KEY_OK, AuthKeyId := 5, AuthKey := some [7], Salt := 8,
          SessionId := 9, SeqNo := 2147483647 }
        (streamOf []) (.encrypted ⟨1, 2, 3, ()⟩)).2.1.SeqNo ≠ 2147483647 + 1 ∧
    (Send (fixedEnv [] [0, 0, 0, 0] none)
        { State := CODEC_AUTH_KEY_OK, AuthKeyId := 5, AuthKey := some [7], Salt := 8,
          SessionId := 9, SeqNo := 2147483647 }
        (streamOf []) (.encrypted ⟨1, 2, 3, ()⟩)).2.2.2 =
      .encrypted ⟨9, 8, -2147483648, ()⟩ := by
  refine ⟨by decide, by decide, by decide⟩

/-- C10, amended. For every codec whose `SeqNo` is an `int32` value below 2147483647
and every Encrypted message, `Send` sets the connection's `SeqNo` to its previous value
plus 1, stamps the message with the connection's `SessionId` and `Salt` and the new
`SeqNo`, and hands `Write` the frame of what the encrypted encoder returns for the
stamped message, the connection's `AuthKeyId` and its `AuthKey`; no other field of the
codec changes. -/
theorem send_encrypted_stamps {UB EB E : Type} (env : Env UB EB E) (m : MTProtoCodec)
    (rw : Transport) (em : EncryptedMessage2 EB)
    (hlo : -2147483648 ≤ m.SeqNo) (hhi : m.SeqNo < 2147483647) :
    (Send env m rw (.encrypted em)).2.1 = { m with SeqNo := m.SeqNo + 1 } ∧
    (Send env m rw (.encrypted em)).2.2.2 =
      .encrypted { SessionId := m.SessionId, salt := m.Salt, SeqNo := m.SeqNo + 1,
                   body := em.body } ∧
    sentBy env m rw (.encrypted em) =
      sizePrefix ((env.encodeEncrypted
          { SessionId := m.SessionId, salt := m.Salt, SeqNo := m.SeqNo + 1, body := em.body }
          m.AuthKeyId m.AuthKey).length / 4) ++
        env.encodeEncrypted
          { SessionId := m.SessionId, salt := m.Salt, SeqNo := m.SeqNo + 1, body := em.body }
          m.AuthKeyId m.AuthKey := by
  have hsucc : int32 (m.SeqNo + 1) = m.SeqNo + 1 := by
    unfold int32
    omega
  refine ⟨?_, ?_, ?_⟩
  · have h : (Send env m rw (.encrypted em)).2.1 =
        { m with SeqNo := int32 (m.SeqNo + 1) } := rfl
    rw [h, hsucc]
  · have h : (Send env m rw (.encrypted em)).2.2.2 =
        .encrypted
          { SessionId := m.SessionId, salt := m.Salt, SeqNo := int32 (m.SeqNo + 1),
            body := em.body } := rfl
    rw [h, hsucc]
  · rw [sentBy_encrypted, hsucc]

/-- C10, amended, at a concrete input: `SeqNo` 41 becomes 42, the stamped message
carries session 9, salt 8 and sequence number 42, and the frame written is the length
byte 1 and the four bytes of the encoder. -/
theorem send_encrypted_stamps_witness :
    (Send (fixedEnv [] [0, 0, 0, 0] none)
        { State := CODEC_AUTH_KEY_OK, AuthKeyId := 5, AuthKey := some [7], Salt := 8,
          SessionId := 9, SeqNo := 41 }
        (streamOf []) (.encrypted ⟨1, 2, 3, ()⟩)).2.1 =
      { State := CODEC_AUTH_KEY_OK, AuthKeyId := 5, AuthKey := some [7], Salt := 8,
        SessionId := 9, SeqNo := 42 } ∧
    (Send (fixedEnv [] [0, 0, 0, 0] none)
        { State := CODEC_AUTH_KEY_OK, AuthKeyId := 5, AuthKey := some [7], Salt := 8,
          SessionId := 9, SeqNo := 41 }
        (streamOf []) (.encrypted ⟨1, 2, 3, ()⟩)).2.2.2 = .encrypted ⟨9, 8, 42, ()⟩ ∧
    sentBy (fixedEnv [] [0, 0, 0, 0] none)
        { State := CODEC_AUTH_KEY_OK, AuthKeyId := 5, AuthKey := some [7], Salt := 8,
          SessionId := 9, SeqNo := 41 }
        (streamOf []) (.encrypted ⟨1, 2, 3, ()⟩) = [1, 0, 0, 0, 0] :=
  send_encrypted_stamps (fixedEnv [] [0, 0, 0, 0] none)
    { State := CODEC_AUTH_KEY_OK, AuthKeyId := 5, AuthKey := some [7], Salt := 8,
      SessionId := 9, SeqNo := 41 }
    (streamOf []) ⟨1, 2, 3, ()⟩ (by decide) (by decide)

/-! ## What a call can change -/

theorem bindKey_bound {UB EB E : Type} (env : Env UB EB E) (m m1 : MTProtoCodec) (k : Int)
    (hk : m.AuthKeyId ≠ 0) (h : bindKey env m k = .ok m1) : m1 = m := by
  unfold bindKey at h
  rw [if_neg hk] at h
  by_cases h2 : m.AuthKeyId ≠ k
  · rw [if_pos h2] at h; cases h
  · rw [if_neg h2] at h; cases h; rfl

theorem bindKey_fields {UB EB E : Type} (env : Env UB EB E) (m m1 : MTProtoCodec) (k : Int)
    (h : bindKey env m k = .ok m1) :
    m1.State = m.State ∧ m1.Salt = m.Salt ∧ m1.SessionId = m.SessionId ∧
      m1.SeqNo = m.SeqNo := by
  by_cases hk : m.AuthKeyId = 0
  · unfold bindKey at h
    rw [if_pos hk] at h
    cases hg : env.GetAuthKey k with
    | none => rw [hg] at h; cases h
    | some key => rw [hg] at h; cases h; exact ⟨rfl, rfl, rfl, rfl⟩
  · rw [bindKey_bound env m m1 k hk h]
    exact ⟨rfl, rfl, rfl, rfl⟩

/-- The codec after `Receive` is the codec before it, or the codec after a key binding,
in both cases possibly with `State` set to `CODEC_AUTH_KEY_OK`. -/
theorem Receive_codec {UB EB E : Type} (env : Env UB EB E) (m : MTProtoCodec)
    (rw : Transport) :
    ∃ m1 : MTProtoCodec, (m1 = m ∨ ∃ k, bindKey env m k = .ok m1) ∧
      ((Receive env m rw).2.1 = m1 ∨
        (Receive env m rw).2.1 = { m1 with State := CODEC_AUTH_KEY_OK }) := by
  unfold Receive
  split
  · exact ⟨m, Or.inl rfl, Or.inl rfl⟩
  · rename_i needAck size buf rest hframe
    dsimp only
    split
    · exact ⟨m, Or.inl rfl, Or.inl rfl⟩
    · split
      · exact ⟨m, Or.inl rfl, Or.inl rfl⟩
      · split
        · split <;> exact ⟨m, Or.inl rfl, Or.inl rfl⟩
        · split
          · exact ⟨m, Or.inl rfl, Or.inl rfl⟩
          · split
            · exact ⟨m, Or.inl rfl, Or.inl rfl⟩
            · rename_i m1 hb
              split
              · exact ⟨m1, Or.inr ⟨_, hb⟩, Or.inl rfl⟩
              · split
                · exact ⟨m1, Or.inr ⟨_, hb⟩, Or.inr rfl⟩
                · exact ⟨m1, Or.inr ⟨_, hb⟩, Or.inl rfl⟩

theorem Receive_keeps_SeqNo {UB EB E : Type} (env : Env UB EB E) (m : MTProtoCodec)
    (rw : Transport) :
    (Receive env m rw).2.1.Salt = m.Salt ∧ (Receive env m rw).2.1.SessionId = m.SessionId ∧
      (Receive env m rw).2.1.SeqNo = m.SeqNo := by
  obtain ⟨m1, h1, h2⟩ := Receive_codec env m rw
  have hm1 : m1.Salt = m.Salt ∧ m1.SessionId = m.SessionId ∧ m1.SeqNo = m.SeqNo := by
    rcases h1 with h | ⟨k, h⟩
    · rw [h]; exact ⟨rfl, rfl, rfl⟩
    · exact (bindKey_fields env m m1 k h).2
  rcases h2 with h | h <;> rw [h] <;> exact hm1

theorem Receive_keeps_binding {UB EB E : Type} (env : Env UB EB E) (m : MTProtoCodec)
    (rw : Transport) (hk : m.AuthKeyId ≠ 0) :
    (Receive env m rw).2.1 = m ∨
      (Receive env m rw).2.1 = { m with State := CODEC_AUTH_KEY_OK } := by
  obtain ⟨m1, h1, h2⟩ := Receive_codec env m rw
  have hm1 : m1 = m := by
    rcases h1 with h | ⟨k, h⟩
    · exact h
    · exact bindKey_bound env m m1 k hk h
  rw [hm1] at h2
  exact h2

theorem Send_codec {UB EB E : Type} (env : Env UB EB E) (m : MTProtoCodec) (rw : Transport)
    (msg : Msg UB EB) :
    (Send env m rw msg).2.1 =
      match msg with
      | .encrypted _ => { m with SeqNo := int32 (m.SeqNo + 1) }
      | _ => m := by
  cases msg <;> rfl

/-! ## C11: a value of another type -/

/-- C11. For every value that is neither an Unencrypted nor an Encrypted message, `Send`
returns the message-type error, hands nothing to `Write` (the stream is as before),
and leaves every codec field, `SeqNo` included, and the value unchanged. -/
theorem send_other_type {UB EB E : Type} (env : Env UB EB E) (m : MTProtoCodec)
    (rw : Transport) (msg : Msg UB EB)
    (hu : ∀ um, msg ≠ .unencrypted um) (he : ∀ em, msg ≠ .encrypted em) :
    Send env m rw msg = (some .msgType, m, rw, msg) ∧ sentBy env m rw msg = [] := by
  cases msg with
  | unencrypted um => exact absurd rfl (hu um)
  | encrypted em => exact absurd rfl (he em)
  | other => exact ⟨rfl, by simp [sentBy, Send]⟩

/-- C11 at a concrete input: a value of another type sent on a bound codec. -/
theorem send_other_type_witness :
    Send (fixedEnv [0, 0, 0, 0] [0, 0, 0, 0] none)
        { State := CODEC_AUTH_KEY_OK, AuthKeyId := 5, AuthKey := some [7], Salt := 8,
          SessionId := 9, SeqNo := 41 }
        { rd := [], wr := [1, 2], werr := false } .other =
      (some .msgType,
        { State := CODEC_AUTH_KEY_OK, AuthKeyId := 5, AuthKey := some [7], Salt := 8,
          SessionId := 9, SeqNo := 41 },
        { rd := [], wr := [1, 2], werr := false }, .other) :=
  (send_other_type (fixedEnv [0, 0, 0, 0] [0, 0, 0, 0] none) _ _ .other
    (fun _ h => by cases h) (fun _ h => by cases h)).1

/-! ## C12: the binding is kept -/

theorem Call_keeps_binding {UB EB E : Type} (m : MTProtoCodec) (c : Call UB EB E)
    (hk : m.AuthKeyId ≠ 0) :
    (c.codecAfter m).AuthKeyId = m.AuthKeyId ∧ (c.codecAfter m).AuthKey = m.AuthKey := by
  cases c with
  | receive env rw =>
    rcases Receive_keeps_binding env m rw hk with h | h <;>
      simp only [Call.codecAfter, h, and_self]
  | send env rw msg =>
    simp only [Call.codecAfter, Send_codec]
    cases msg <;> exact ⟨rfl, rfl⟩

/-- C12. For every codec whose `AuthKeyId` is nonzero and every sequence of `Receive` and
`Send` calls, on any streams, collaborators and values, `AuthKeyId` and `AuthKey` after
the sequence are what they were before it. The sequence is arbitrary, so this holds
after every call of it, whatever the calls returned. -/
theorem binding_kept {UB EB E : Type} (m : MTProtoCodec) (calls : List (Call UB EB E))
    (hk : m.AuthKeyId ≠ 0) :
    (runCalls m calls).AuthKeyId = m.AuthKeyId ∧ (runCalls m calls).AuthKey = m.AuthKey := by
  induction calls generalizing m with
  | nil => exact ⟨rfl, rfl⟩
  | cons c cs ih =>
    have hc := Call_keeps_binding m c hk
    have hk2 : (c.codecAfter m).AuthKeyId ≠ 0 := by rw [hc.1]; exact hk
    have h := ih (c.codecAfter m) hk2
    exact ⟨h.1.trans hc.1, h.2.trans hc.2⟩

/-- C12 at a concrete input: key 5 is bound in state `CODEC_resPQ`; a frame naming key
1, a frame naming key 5, an Encrypted send and a quick-ack frame follow. -/
theorem binding_kept_witness :
    (runCalls
        { State := CODEC_resPQ, AuthKeyId := 5, AuthKey := some [8], Salt := 0,
          SessionId := 0, SeqNo := 0 }
        [.receive (fixedEnv [] [] (some [7])) (streamOf [2, 1, 0, 0, 0, 0, 0, 0, 0]),
         .receive (fixedEnv [] [] (some [7])) (streamOf [2, 5, 0, 0, 0, 0, 0, 0, 0]),
         .send (fixedEnv [] [] (some [7])) (streamOf []) (.encrypted ⟨0, 0, 0, ()⟩),
         .receive (fixedEnv [] [] (some [7])) (streamOf [1, 1, 2, 3, 4])]).AuthKeyId = 5 ∧
    (runCalls
        { State := CODEC_resPQ, AuthKeyId := 5, AuthKey := some [8], Salt := 0,
          SessionId := 0, SeqNo := 0 }
        [.receive (fixedEnv [] [] (some [7])) (streamOf [2, 1, 0, 0, 0, 0, 0, 0, 0]),
         .receive (fixedEnv [] [] (some [7])) (streamOf [2, 5, 0, 0, 0, 0, 0, 0, 0]),
         .send (fixedEnv [] [] (some [7])) (streamOf []) (.encrypted ⟨0, 0, 0, ()⟩),
         .receive (fixedEnv [] [] (some [7])) (streamOf [1, 1, 2, 3, 4])]).AuthKey
      = some [8] :=
  binding_kept _ _ (by decide)

/-! ## C13: the transition to `CODEC_AUTH_KEY_OK` -/

/-- C13, as stated, fails. On the codec `NewCodec` builds (state `CODEC_CONNECTED`), a
frame with key identifier 1 that the key store resolves and whose body the decoder
accepts yields the invalid-state error and leaves the codec, its state included, as it
was. And in state `CODEC_resPQ` with key 5 already bound, the same frame yields the key
error. -/
theorem receive_transition_counterexample :
    (fixedEnv [] [] (some [7])).GetAuthKey 1 = some [7] ∧
    (fixedEnv [] [] (some [7])).decodeEncrypted (some [7]) [] =
      .ok { SessionId := 0, salt := 0, SeqNo := 0, body := () } ∧
    Receive (fixedEnv [] [] (some [7])) NewCodec (streamOf [2, 1, 0, 0, 0, 0, 0, 0, 0]) =
      (.error (.invalidState CODEC_CONNECTED), NewCodec, streamOf []) ∧
    (Receive (fixedEnv [] [] (some [7])) NewCodec
      (streamOf [2, 1, 0, 0, 0, 0, 0, 0, 0])).2.1.State = CODEC_CONNECTED ∧
    Receive (fixedEnv [] [] (some [7]))
        { State := CODEC_resPQ, AuthKeyId := 5, AuthKey := some [8], Salt := 0,
          SessionId := 0, SeqNo := 0 }
        (streamOf [2, 1, 0, 0, 0, 0, 0, 0, 0]) =
      (.error (.keyError 5 1),
        { State := CODEC_resPQ, AuthKeyId := 5, AuthKey := some [8], Salt := 0,
          SessionId := 0, SeqNo := 0 },
        streamOf []) := by
  refine ⟨rfl, rfl, by decide, by decide, by decide⟩

/-- C13, amended. Take a frame carrying a nonzero key identifier `k` that the key store
resolves to `K` and whose body the encrypted decoder accepts under `K`, and a codec
with no key bound. From each of the states `CODEC_resPQ` and `CODEC_dh_gen_ok`,
`Receive` returns the decoded message, binds the key and moves `State` to
`CODEC_AUTH_KEY_OK`. From the state `CODEC_CONNECTED`, that of a codec freshly built by
`NewCodec`, `Receive` returns the invalid-state error and leaves the codec, `State`
included, unchanged. -/
theorem receive_transition {UB EB E : Type} (env : Env UB EB E) (m : MTProtoCodec)
    (rw : Transport) (b0 : Byte) (payload rest : List Byte) (k : Int) (K : List Byte)
    (message : EncryptedMessage2 EB)
    (hlen : payload.length = 4 * (b0.val % 128)) (h8 : 8 ≤ payload.length)
    (hk : int64 (Uint64 payload) = k) (hk0 : k ≠ 0)
    (hunbound : m.AuthKeyId = 0)
    (hres : env.GetAuthKey k = some K)
    (hdec : env.decodeEncrypted (some K) (payload.drop 8) = .ok message)
    (hrd : rw.rd = b0 :: (payload ++ rest)) :
    (m.State = CODEC_resPQ ∨ m.State = CODEC_dh_gen_ok →
      Receive env m rw =
        (.ok (.encrypted message),
          { m with AuthKeyId := k, AuthKey := some K, State := CODEC_AUTH_KEY_OK },
          { rw with rd := rest })) ∧
    (m.State = CODEC_CONNECTED →
      Receive env m rw =
        (.error (.invalidState CODEC_CONNECTED), m, { rw with rd := rest })) ∧
    (m = NewCodec →
      Receive env m rw =
        (.error (.invalidState CODEC_CONNECTED), NewCodec, { rw with rd := rest })) := by
  have hframe := readFrame_frame b0 payload rest hlen
  have h4 : ¬ (payload.length = 4) := by omega
  have hlt : ¬ (payload.length < 8) := by omega
  have hconn : m.State = CODEC_CONNECTED →
      Receive env m rw =
        (.error (.invalidState CODEC_CONNECTED), m, { rw with rd := rest }) := by
    intro hs
    have hbad : CODEC_CONNECTED ≠ CODEC_AUTH_KEY_OK ∧ CODEC_CONNECTED ≠ CODEC_resPQ ∧
        CODEC_CONNECTED ≠ CODEC_dh_gen_ok := by decide
    simp only [Receive, hrd, hframe, h4, hlt, hk, hk0, hs, if_true, if_false]
    rw [if_pos hbad]
  refine ⟨?_, hconn, ?_⟩
  · intro hst
    have hperm : ¬ (m.State ≠ CODEC_AUTH_KEY_OK ∧ m.State ≠ CODEC_resPQ ∧
        m.State ≠ CODEC_dh_gen_ok) := by
      rcases hst with h | h <;> simp [h]
    have hs : m.State ≠ CODEC_AUTH_KEY_OK := by
      rcases hst with h | h <;> rw [h] <;> decide
    simp only [Receive, hrd, hframe, h4, hlt, hk, hk0, hperm, bindKey, hunbound, hres, hdec,
      if_true, if_false]
    simp [hs]
  · intro hm
    have h := hconn (by rw [hm]; rfl)
    rw [h, hm]

/-- C13, amended, at a concrete input: key identifier 1, key `7`, first in state
`CODEC_dh_gen_ok`, then on the codec `NewCodec` builds. -/
theorem receive_transition_witness :
    Receive (fixedEnv [] [] (some [7]))
        { State := CODEC_dh_gen_ok, AuthKeyId := 0, AuthKey := none, Salt := 0,
          SessionId := 0, SeqNo := 0 }
        (streamOf [2, 1, 0, 0, 0, 0, 0, 0, 0]) =
      (.ok (.encrypted { SessionId := 0, salt := 0, SeqNo := 0, body := () }),
        { State := CODEC_AUTH_KEY_OK, AuthKeyId := 1, AuthKey := some [7], Salt := 0,
          SessionId := 0, SeqNo := 0 },
        streamOf []) ∧
    Receive (fixedEnv [] [] (some [7])) NewCodec (streamOf [2, 1, 0, 0, 0, 0, 0, 0, 0]) =
      (.error (.invalidState CODEC_CONNECTED), NewCodec, streamOf []) :=
  ⟨(receive_transition (fixedEnv [] [] (some [7])) _ (streamOf [2, 1, 0, 0, 0, 0, 0, 0, 0]) 2
      [1, 0, 0, 0, 0, 0, 0, 0] [] 1 [7] _ (by decide) (by decide) (by decide) (by decide) rfl
      rfl rfl rfl).1 (Or.inr rfl),
   (receive_transition (fixedEnv [] [] (some [7])) NewCodec
      (streamOf [2, 1, 0, 0, 0, 0, 0, 0, 0]) 2
      [1, 0, 0, 0, 0, 0, 0, 0] [] 1 [7] ⟨0, 0, 0, ()⟩ (by decide) (by decide) (by decide)
      (by decide) rfl rfl rfl rfl).2.2 rfl⟩

/-! ## C14: `SeqNo` along a sequence of calls -/

theorem Call_SeqNo {UB EB E : Type} (m : MTProtoCodec) (c : Call UB EB E) :
    (c.codecAfter m).SeqNo =
      if c.isEncryptedSend = true then int32 (m.SeqNo + 1) else m.SeqNo := by
  cases c with
  | receive env rw => exact (Receive_keeps_SeqNo env m rw).2.2
  | send env rw msg => cases msg <;> rfl

theorem Call_stamped {UB EB E : Type} (m : MTProtoCodec) (c : Call UB EB E) :
    c.stamped m = if c.isEncryptedSend = true then some (int32 (m.SeqNo + 1)) else none := by
  cases c with
  | receive env rw => rfl
  | send env rw msg => cases msg <;> rfl

theorem int32_succ (x : Int) (hlo : -2147483648 ≤ x) (hhi : x < 2147483647) :
    int32 (x + 1) = x + 1 := by
  unfold int32
  omega

/-- Below the largest `int32`, along a sequence of calls: the trace of `SeqNo` is
non-decreasing and starts at the first value; the stamped values are strictly increasing
and lie above the first value; the last value is the first plus the number of Encrypted
sends. -/
theorem seqNo_trace_aux {UB EB E : Type} (calls : List (Call UB EB E)) :
    ∀ m : MTProtoCodec, -2147483648 ≤ m.SeqNo →
      m.SeqNo + (calls.countP Call.isEncryptedSend : Nat) ≤ 2147483647 →
      List.Pairwise (fun a b => a ≤ b) (seqNoTrace m calls) ∧
      (∀ x ∈ seqNoTrace m calls, m.SeqNo ≤ x) ∧
      List.Pairwise (fun a b => a < b) (stampsOf m calls) ∧
      (∀ v ∈ stampsOf m calls, m.SeqNo < v) ∧
      (runCalls m calls).SeqNo = m.SeqNo + (calls.countP Call.isEncryptedSend : Nat) := by
  induction calls with
  | nil =>
    intro m _ _
    simp [seqNoTrace, stampsOf, runCalls]
  | cons c cs ih =>
    intro m hlo hhi
    have hstep := Call_SeqNo m c
    have hst := Call_stamped m c
    by_cases hc : c.isEncryptedSend = true
    · rw [if_pos hc] at hstep hst
      rw [List.countP_cons_of_pos _ _ hc] at hhi
      push_cast at hhi
      have hsucc : int32 (m.SeqNo + 1) = m.SeqNo + 1 := int32_succ _ hlo (by omega)
      rw [hsucc] at hstep hst
      obtain ⟨h1, h2, h3, h4, h5⟩ := ih (c.codecAfter m) (by rw [hstep]; omega)
        (by rw [hstep]; omega)
      rw [hstep] at h2 h4 h5
      refine ⟨?_, ?_, ?_, ?_, ?_⟩
      · simp only [seqNoTrace, List.pairwise_cons]
        exact ⟨fun x hx => by have := h2 x hx; omega, h1⟩
      · intro x hx
        simp only [seqNoTrace, List.mem_cons] at hx
        rcases hx with hx | hx
        · omega
        · have := h2 x hx; omega
      · simp only [stampsOf, hst, List.pairwise_cons]
        exact ⟨fun v hv => h4 v hv, h3⟩
      · intro v hv
        simp only [stampsOf, hst, List.mem_cons] at hv
        rcases hv with hv | hv
        · omega
        · have := h4 v hv; omega
      · simp only [runCalls, h5, List.countP_cons_of_pos _ _ hc]
        push_cast
        omega
    · rw [if_neg hc] at hstep hst
      rw [List.countP_cons_of_neg _ _ hc] at hhi
      obtain ⟨h1, h2, h3, h4, h5⟩ := ih (c.codecAfter m) (by rw [hstep]; omega)
        (by rw [hstep]; omega)
      rw [hstep] at h2 h4 h5
      refine ⟨?_, ?_, ?_, ?_, ?_⟩
      · simp only [seqNoTrace, List.pairwise_cons]
        exact ⟨h2, h1⟩
      · intro x hx
        simp only [seqNoTrace, List.mem_cons] at hx
        rcases hx with hx | hx
        · omega
        · exact h2 x hx
      · simp only [stampsOf, hst]
        exact h3
      · intro v hv
        simp only [stampsOf, hst] at hv
        exact h4 v hv
      · simp only [runCalls, h5, List.countP_cons_of_neg _ _ hc]

/-- C14, as stated, fails. An Encrypted send on a codec whose `SeqNo` is 2147483647, the
largest `int32`, leaves `SeqNo` at -2147483648: the value decreases. And two Encrypted
sends from `SeqNo` 2147483646 stamp 2147483647 and then -2147483648, which is not an
increase. -/
theorem seqNo_monotone_counterexample :
    seqNoTrace
        { State := CODEC_AUTH_KEY_OK, AuthKeyId := 5, AuthKey := some [7], Salt := 0,
          SessionId := 0, SeqNo := 2147483647 }
        [.send (fixedEnv [] [] none) (streamOf []) (.encrypted ⟨0, 0, 0, ()⟩)] =
      [2147483647, -2147483648] ∧
    stampsOf
        { State := CODEC_AUTH_KEY_OK, AuthKeyId := 5, AuthKey := some [7], Salt := 0,
          SessionId := 0, SeqNo := 2147483646 }
        [.send (fixedEnv [] [] none) (streamOf []) (.encrypted ⟨0, 0, 0, ()⟩),
         .send (fixedEnv [] [] none) (streamOf []) (.encrypted ⟨0, 0, 0, ()⟩)] =
      [2147483647, -2147483648] ∧
    ¬ ((2147483647 : Int) ≤ -2147483648) := by
  refine ⟨by decide, by decide, by decide⟩

/-- C14, amended. For every codec whose `SeqNo` is an `int32` value and every sequence
of `Send` and `Receive` calls in which the Encrypted sends number at most
`2147483647 - SeqNo`, `SeqNo` never decreases (every later value of the trace is at
least every earlier one), the `SeqNo` values stamped on successive Encrypted sends are
strictly increasing, so that no value repeats, and `SeqNo` ends at its first value plus
the number of Encrypted sends. -/
theorem seqNo_monotone_below_max {UB EB E : Type} (m : MTProtoCodec)
    (calls : List (Call UB EB E)) (hlo : -2147483648 ≤ m.SeqNo)
    (hhi : m.SeqNo + (calls.countP Call.isEncryptedSend : Nat) ≤ 2147483647) :
    List.Pairwise (fun a b => a ≤ b) (seqNoTrace m calls) ∧
    List.Pairwise (fun a b => a < b) (stampsOf m calls) ∧
    (stampsOf m calls).Nodup ∧
    (runCalls m calls).SeqNo = m.SeqNo + (calls.countP Call.isEncryptedSend : Nat) := by
  obtain ⟨h1, _, h3, _, h5⟩ := seqNo_trace_aux calls m hlo hhi
  exact ⟨h1, h3, h3.imp (fun h => ne_of_lt h), h5⟩

/-- C14, amended, at a concrete input: from `SeqNo` 2147483645, an Encrypted send, a
frame received and a second Encrypted send. -/
theorem seqNo_monotone_below_max_witness :
    List.Pairwise (fun a b => a < b)
      (stampsOf
        { State := CODEC_AUTH_KEY_OK, AuthKeyId := 5, AuthKey := some [7], Salt := 0,
          SessionId := 0, SeqNo := 2147483645 }
        [.send (fixedEnv [] [] none) (streamOf []) (.encrypted ⟨0, 0, 0, ()⟩),
         .receive (fixedEnv [] [] none) (streamOf [2, 5, 0, 0, 0, 0, 0, 0, 0]),
         .send (fixedEnv [] [] none) (streamOf []) (.encrypted ⟨0, 0, 0, ()⟩)]) ∧
    (runCalls
        { State := CODEC_AUTH_KEY_OK, AuthKeyId := 5, AuthKey := some [7], Salt := 0,
          SessionId := 0, SeqNo := 2147483645 }
        [.send (fixedEnv [] [] none) (streamOf []) (.encrypted ⟨0, 0, 0, ()⟩),
         .receive (fixedEnv [] [] none) (streamOf [2, 5, 0, 0, 0, 0, 0, 0, 0]),
         .send (fixedEnv [] [] none) (streamOf []) (.encrypted ⟨0, 0, 0, ()⟩)]).SeqNo
      = 2147483647 :=
  have h := seqNo_monotone_below_max
    { State := CODEC_AUTH_KEY_OK, AuthKeyId := 5, AuthKey := some [7], Salt := 0,
      SessionId := 0, SeqNo := 2147483645 }
    [.send (fixedEnv [] [] none) (streamOf []) (.encrypted ⟨0, 0, 0, ()⟩),
     .receive (fixedEnv [] [] none) (streamOf [2, 5, 0, 0, 0, 0, 0, 0, 0]),
     .send (fixedEnv [] [] none) (streamOf []) (.encrypted ⟨0, 0, 0, ()⟩)]
    (by decide) (by decide)
  ⟨h.2.1, h.2.2.2⟩

/-! ## C15: `Send` with no key bound -/

/-- C16. For every codec and every value, `Send` leaves `State`, `AuthKeyId`, `AuthKey`,
`Salt` and `SessionId` unchanged, so the codec after the call is the codec before it
with at most `SeqNo` changed; `Send` of an Unencrypted message leaves `SeqNo`, hence the
whole codec, unchanged. -/
theorem send_changes_only_seqNo {UB EB E : Type} (env : Env UB EB E) (m : MTProtoCodec)
    (rw : Transport) (msg : Msg UB EB) (um : UnencryptedMessage UB) :
    (Send env m rw msg).2.1.State = m.State ∧
    (Send env m rw msg).2.1.AuthKeyId = m.AuthKeyId ∧
    (Send env m rw msg).2.1.AuthKey = m.AuthKey ∧
    (Send env m rw msg).2.1.Salt = m.Salt ∧
    (Send env m rw msg).2.1.SessionId = m.SessionId ∧
    (Send env m rw msg).2.1 = { m with SeqNo := (Send env m rw msg).2.1.SeqNo } ∧
    (Send env m rw (.unencrypted um)).2.1.SeqNo = m.SeqNo ∧
    (Send env m rw (.unencrypted um)).2.1 = m := by
  cases msg <;> exact ⟨rfl, rfl, rfl, rfl, rfl, rfl, rfl, rfl⟩

/-! ## C17: `Receive` in the steady state -/

/-- C17. For every codec with `State = CODEC_AUTH_KEY_OK` and a bound key (`AuthKeyId`
nonzero), every stream and all collaborators, `Receive` leaves the codec, that is every
one of `State`, `AuthKeyId`, `AuthKey`, `Salt`, `SessionId` and `SeqNo`, unchanged,
whatever it returns. -/
theorem receive_steady_state {UB EB E : Type} (env : Env UB EB E) (m : MTProtoCodec)
    (rw : Transport) (hst : m.State = CODEC_AUTH_KEY_OK) (hk : m.AuthKeyId ≠ 0) :
    (Receive env m rw).2.1 = m := by
  rcases Receive_keeps_binding env m rw hk with h | h
  · exact h
  · rw [h, ← hst]

/-- C17 at a concrete input: a frame for the bound key 5, decoded to a message. -/
theorem receive_steady_state_witness :
    (Receive (fixedEnv [] [] none)
        { State := CODEC_AUTH_KEY_OK, AuthKeyId := 5, AuthKey := some [7], Salt := 1,
          SessionId := 2, SeqNo := 3 }
        (streamOf [2, 5, 0, 0, 0, 0, 0, 0, 0])).2.1 =
      { State := CODEC_AUTH_KEY_OK, AuthKeyId := 5, AuthKey := some [7], Salt := 1,
        SessionId := 2, SeqNo := 3 } ∧
    (Receive (fixedEnv [] [] none)
        { State := CODEC_AUTH_KEY_OK, AuthKeyId := 5, AuthKey := some [7], Salt := 1,
          SessionId := 2, SeqNo := 3 }
        (streamOf [2, 5, 0, 0, 0, 0, 0, 0, 0])).1 = .ok (.encrypted ⟨0, 0, 0, ()⟩) :=
  ⟨receive_steady_state (fixedEnv [] [] none) _ (streamOf [2, 5, 0, 0, 0, 0, 0, 0, 0]) rfl
    (by decide), by decide⟩

/-! ## C18: one frame per call -/

/-- The frame reader fails exactly when the stream ends before the length byte or before
the payload the length byte counts is complete. -/
theorem readFrame_eq_none (s : List Byte) :
    readFrame s = none ↔
      s = [] ∨ ∃ b0 t, s = b0 :: t ∧ t.length < 4 * (b0.val % 128) := by
  cases s with
  | nil => simp [readFrame, ReadFull]
  | cons b0 t =>
    rw [readFrame_cons]
    by_cases h : 4 * (b0.val % 128) ≤ t.length
    · simp only [h, if_true]
      constructor
      · intro hc; cases hc
      · rintro (hc | ⟨b, u, hc, hl⟩)
        · cases hc
        · cases hc; omega
    · simp only [h, if_false, true_iff]
      exact Or.inr ⟨b0, t, rfl, by omega⟩

/-- On a stream that ends too early `Receive` returns the stream error and leaves the
codec unchanged. -/
theorem Receive_incomplete {UB EB E : Type} (env : Env UB EB E) (m : MTProtoCodec)
    (rw : Transport) (h : readFrame rw.rd = none) :
    Receive env m rw = (.error .stream, m, { rw with rd := [] }) := by
  simp only [Receive, h]

/-- On a frame whose length byte counts the words of its payload, `Receive` consumes the
length byte and the payload, whatever it returns. -/
theorem Receive_consumes {UB EB E : Type} (env : Env UB EB E) (m : MTProtoCodec)
    (rw : Transport) (b0 : Byte) (payload rest : List Byte)
    (hlen : payload.length = 4 * (b0.val % 128)) (hrd : rw.rd = b0 :: (payload ++ rest)) :
    (Receive env m rw).2.2 = { rw with rd := rest } := by
  have hframe := readFrame_frame b0 payload rest hlen
  simp only [Receive, hrd, hframe]
  split
  · rfl
  · split
    · rfl
    · split
      · split <;> rfl
      · split
        · rfl
        · split
          · rfl
          · split
            · rfl
            · split <;> rfl

set_option maxRecDepth 8192 in
/-- C18, the code at the failing input. The stream holds two frames as `Send` writes
them: an Unencrypted message whose encoding is 512 zero bytes (word count 128, prefix
`0x7F, 0x80, 0, 0`), then one whose encoding is 8 zero bytes (prefix `2`). The first
`Receive` takes `0x7F` as the word count 127, reads 508 bytes from the three length
bytes on, and returns the invalid-state error for the key identifier `0x80`; it leaves
the last 7 bytes of the first frame in the stream, so the second `Receive` does not
start at the second frame: it reads a zero length byte and indexes an empty payload.
Neither message is returned. -/
theorem receive_two_frames_long_first :
    sentBy (fixedEnv (List.replicate 512 0) [] none) NewCodec (streamOf [])
        (.unencrypted ⟨false, ()⟩) = [0x7F, 0x80, 0x00, 0x00] ++ List.replicate 512 0 ∧
    sentBy (fixedEnv (List.replicate 8 0) [] none) NewCodec (streamOf [])
        (.unencrypted ⟨false, ()⟩) = [2, 0, 0, 0, 0, 0, 0, 0, 0] ∧
    Receive (fixedEnv [] [] none) NewCodec
        (streamOf ([0x7F, 0x80, 0x00, 0x00] ++
          (List.replicate 512 0 ++ [2, 0, 0, 0, 0, 0, 0, 0, 0]))) =
      (.error (.invalidState CODEC_CONNECTED), NewCodec,
        streamOf (List.replicate 7 0 ++ [2, 0, 0, 0, 0, 0, 0, 0, 0])) ∧
    Receive (fixedEnv [] [] none) NewCodec
        (streamOf (List.replicate 7 0 ++ [2, 0, 0, 0, 0, 0, 0, 0, 0])) =
      (.indexOutOfRange, NewCodec,
        streamOf (List.replicate 6 0 ++ [2, 0, 0, 0, 0, 0, 0, 0, 0])) := by
  have hpre : sizePrefix 128 = [0x7F, 0x80, 0x00, 0x00] := by decide
  have hsent : sentBy (fixedEnv (List.replicate 512 0) [] none) NewCodec (streamOf [])
      (.unencrypted ⟨false, ()⟩) = [0x7F, 0x80, 0x00, 0x00] ++ List.replicate 512 0 := by
    rw [sentBy_unencrypted]
    show sizePrefix ((List.replicate 512 (0 : Byte)).length / 4) ++ List.replicate 512 0 = _
    rw [List.length_replicate]
    exact congrArg (fun p => p ++ List.replicate 512 0) hpre
  have hlen : ([0x80, 0x00, 0x00] ++ List.replicate 505 0 : List Byte).length = 508 := by
    rw [List.length_append, List.length_replicate]; rfl
  have hs : ([0x7F, 0x80, 0x00, 0x00] ++
      (List.replicate 512 0 ++ [2, 0, 0, 0, 0, 0, 0, 0, 0]) : List Byte) =
      0x7F :: (([0x80, 0x00, 0x00] ++ List.replicate 505 0) ++
        (List.replicate 7 0 ++ [2, 0, 0, 0, 0, 0, 0, 0, 0])) := by
    have h512 : (List.replicate 512 0 : List Byte) =
        List.replicate 505 0 ++ List.replicate 7 0 := by
      rw [List.append_replicate_replicate]
    rw [h512, List.append_assoc, List.append_assoc]
    rfl
  have hframe : readFrame ([0x7F, 0x80, 0x00, 0x00] ++
      (List.replicate 512 0 ++ [2, 0, 0, 0, 0, 0, 0, 0, 0])) =
      some (false, 508, [0x80, 0x00, 0x00] ++ List.replicate 505 0,
        List.replicate 7 0 ++ [2, 0, 0, 0, 0, 0, 0, 0, 0]) := by
    have h := readFrame_frame 0x7F ([0x80, 0x00, 0x00] ++ List.replicate 505 0)
      (List.replicate 7 0 ++ [2, 0, 0, 0, 0, 0, 0, 0, 0]) (by rw [hlen]; rfl)
    rw [hs, h, hlen]
    rfl
  have hkey : int64 (Uint64 ([0x80, 0x00, 0x00] ++ List.replicate 505 0)) = 128 := by
    have ht : ([0x80, 0x00, 0x00] ++ List.replicate 505 (0 : Byte)).take 8 =
        [0x80, 0, 0, 0, 0, 0, 0, 0] := rfl
    unfold Uint64
    rw [ht]
    decide
  have h4 : ¬ ((508 : Nat) = 4) := by decide
  have h8 : ¬ ((508 : Nat) < 8) := by decide
  have hk : ¬ ((128 : Int) = 0) := by decide
  have hst : NewCodec.State ≠ CODEC_AUTH_KEY_OK ∧ NewCodec.State ≠ CODEC_resPQ ∧
      NewCodec.State ≠ CODEC_dh_gen_ok := by decide
  refine ⟨hsent, by decide, ?_, by decide⟩
  simp only [Receive, streamOf, hframe, hlen, hkey, h4, h8, hk, if_true, if_false]
  rw [if_pos hst]
  rfl

/-! ## C19: word count 0 -/

/-- C19, the code at the failing input. On a stream whose first byte is `0x00` or `0x80`
(word count 0), in every codec state, `Receive` reads no payload, passes the test
`size == 4`, and reads the 8-byte key identifier from the empty buffer: the read is out
of range, and the call yields neither a message nor an error. -/
theorem receive_zero_word_count {UB EB E : Type} (env : Env UB EB E) (m : MTProtoCodec)
    (rest wr : List Byte) (werr : Bool) :
    readFrame (0x00 :: rest) = some (false, 0, [], rest) ∧
    Receive env m { rd := 0x00 :: rest, wr := wr, werr := werr } =
      (.indexOutOfRange, m, { rd := rest, wr := wr, werr := werr }) ∧
    Receive env m { rd := 0x80 :: rest, wr := wr, werr := werr } =
      (.indexOutOfRange, m, { rd := rest, wr := wr, werr := werr }) ∧
    Receive (fixedEnv [] [] none) NewCodec (streamOf [0x00]) =
      (.indexOutOfRange, NewCodec, streamOf []) := by
  have h0 := readFrame_frame 0x00 [] rest (by decide)
  have h1 := readFrame_frame 0x80 [] rest (by decide)
  rw [List.nil_append] at h0 h1
  refine ⟨h0, ?_, ?_, by decide⟩
  · simp only [Receive, h0]
    rfl
  · simp only [Receive, h1]
    rfl

/-! ## C20: the key is bound before the body is decoded -/

/-- C20. For every codec with no key bound in state `CODEC_resPQ` or `CODEC_dh_gen_ok` and
every frame whose nonzero key identifier `k` the key store resolves to `K` but whose
body the encrypted decoder rejects, `Receive` returns the decoder's error and leaves
`State` unchanged, yet afterwards `AuthKeyId = k` and `AuthKey = K`. On the codec so
left, a later frame with a different nonzero key identifier yields the key error, for
every key store and decoder, and the codec stays as it is. -/
theorem receive_binds_before_decoding {UB EB E : Type} (env env2 : Env UB EB E)
    (m : MTProtoCodec) (rw rw2 : Transport) (b0 b2 : Byte)
    (payload rest payload2 rest2 : List Byte) (k : Int) (K : List Byte) (e : E)
    (hlen : payload.length = 4 * (b0.val % 128)) (h8 : 8 ≤ payload.length)
    (hk : int64 (Uint64 payload) = k) (hk0 : k ≠ 0)
    (hunbound : m.AuthKeyId = 0)
    (hst : m.State = CODEC_resPQ ∨ m.State = CODEC_dh_gen_ok)
    (hres : env.GetAuthKey k = some K)
    (hdec : env.decodeEncrypted (some K) (payload.drop 8) = .error e)
    (hrd : rw.rd = b0 :: (payload ++ rest))
    (hlen2 : payload2.length = 4 * (b2.val % 128)) (h82 : 8 ≤ payload2.length)
    (hk2 : int64 (Uint64 payload2) ≠ 0) (hne : int64 (Uint64 payload2) ≠ k)
    (hrd2 : rw2.rd = b2 :: (payload2 ++ rest2)) :
    Receive env m rw =
      (.error (.decode e), { m with AuthKeyId := k, AuthKey := some K },
        { rw with rd := rest }) ∧
    (Receive env m rw).2.1.State = m.State ∧
    (Receive env m rw).2.1.AuthKeyId = k ∧
    (Receive env m rw).2.1.AuthKey = some K ∧
    Receive env2 (Receive env m rw).2.1 rw2 =
      (.error (.keyError k (int64 (Uint64 payload2))), (Receive env m rw).2.1,
        { rw2 with rd := rest2 }) := by
  have hframe := readFrame_frame b0 payload rest hlen
  have h4 : ¬ (payload.length = 4) := by omega
  have hlt : ¬ (payload.length < 8) := by omega
  have hperm : ¬ (m.State ≠ CODEC_AUTH_KEY_OK ∧ m.State ≠ CODEC_resPQ ∧
      m.State ≠ CODEC_dh_gen_ok) := by
    rcases hst with h | h <;> simp [h]
  have hfirst : Receive env m rw =
      (.error (.decode e), { m with AuthKeyId := k, AuthKey := some K },
        { rw with rd := rest }) := by
    simp only [Receive, hrd, hframe, h4, hlt, hk, hk0, hperm, bindKey, hunbound, hres, hdec,
      if_true, if_false]
  have hframe2 := readFrame_frame b2 payload2 rest2 hlen2
  have h42 : ¬ (payload2.length = 4) := by omega
  have hlt2 : ¬ (payload2.length < 8) := by omega
  have hne2 : ¬ (k = int64 (Uint64 payload2)) := fun h => hne h.symm
  refine ⟨hfirst, ?_, ?_, ?_, ?_⟩
  · rw [hfirst]
  · rw [hfirst]
  · rw [hfirst]
  · rw [hfirst]
    simp only [Receive, hrd2, hframe2, h42, hlt2, hk2, hperm, bindKey, hk0, hne2, ne_eq,
      not_false_eq_true, if_true, if_false]

/-- C20 at a concrete input: in state `CODEC_resPQ` a frame names key 1, which the store
resolves to `7`, and the decoder rejects its body; the next frame names key 2. -/
theorem receive_binds_before_decoding_witness :
    Receive (rejectingEnv (some [7]))
        { State := CODEC_resPQ, AuthKeyId := 0, AuthKey := none, Salt := 0, SessionId := 0,
          SeqNo := 0 }
        (streamOf [2, 1, 0, 0, 0, 0, 0, 0, 0]) =
      (.error (.decode ()),
        { State := CODEC_resPQ, AuthKeyId := 1, AuthKey := some [7], Salt := 0,
          SessionId := 0, SeqNo := 0 },
        streamOf []) ∧
    Receive (fixedEnv [] [] (some [9]))
        { State := CODEC_resPQ, AuthKeyId := 1, AuthKey := some [7], Salt := 0,
          SessionId := 0, SeqNo := 0 }
        (streamOf [2, 2, 0, 0, 0, 0, 0, 0, 0]) =
      (.error (.keyError 1 2),
        { State := CODEC_resPQ, AuthKeyId := 1, AuthKey := some [7], Salt := 0,
          SessionId := 0, SeqNo := 0 },
        streamOf []) :=
  have h := receive_binds_before_decoding (rejectingEnv (some [7])) (fixedEnv [] [] (some [9]))
    { State := CODEC_resPQ, AuthKeyId := 0, AuthKey := none, Salt := 0, SessionId := 0,
      SeqNo := 0 }
    (streamOf [2, 1, 0, 0, 0, 0, 0, 0, 0]) (streamOf [2, 2, 0, 0, 0, 0, 0, 0, 0]) 2 2
    [1, 0, 0, 0, 0, 0, 0, 0] [] [2, 0, 0, 0, 0, 0, 0, 0] [] 1 [7] ()
    (by decide) (by decide) (by decide) (by decide) rfl (Or.inl rfl) rfl rfl rfl
    (by decide) (by decide) (by decide) (by decide) rfl
  ⟨h.1, h.2.2.2.2⟩

end mtproto
